

import Mathlib

/-!
# Verification of the late-prover-bot proof pipeline

A shallow embedding of the core of the `late-prover-bot` repository
(deadline arithmetic, exit-data decoding, Merkle proof construction and
verification, transaction execution, and the cycle driver), together with
theorems settling the specification claims against it.

Conventions of the embedding:
* machine numbers are `Nat`/`Int` (JS `Math.floor(a / b)` with `b > 0` is
  `Int.fdiv`; JS `%` on non-negative operands is `Int.emod`);
* byte strings (`Uint8Array`/`Buffer`) are `List (Fin 256)`;
* fallible code returns `Except`/`Option`, with the thrown message kept;
* external I/O results (beacon headers, registry thresholds, SSZ gindices
  computed by the `@chainsafe/ssz` type machinery) are parameters of the
  embedded functions, as they are inputs of the modelled code paths;
* the SHA-256 pair hasher supplied by `node:crypto` is an abstract
  parameter `hash2`, since every claim is about the control flow around it.
-/

set_option maxRecDepth 10000

deriving instance DecidableEq for Except

/-- Bytes of a JS `Uint8Array` / `Buffer`. -/
abbrev Bytes := List (Fin 256)

/-! ## Beacon environment and deadline arithmetic

Embedded from `src/src/common/prover/prover.service.ts` (the variant at
lines 1079-1704) and `src/src/common/providers/consensus/consensus.ts`. -/

/-- Beacon constants: `consensus.genesisTimestamp`, `beaconConfig.SECONDS_PER_SLOT`,
`beaconConfig.SLOTS_PER_EPOCH` and the verifier's
`SHARD_COMMITTEE_PERIOD_IN_SECONDS` (all fixed at startup). -/
structure BeaconEnvM where
  genesisTimestamp : Int
  secondsPerSlot : Int
  slotsPerEpoch : Int
  shardCommitteePeriodInSeconds : Int

/-- Embeds `ProverService.getEligibleExitRequestTimestamp`: the max of the delivery
timestamp and the earliest possible voluntary exit timestamp. -/
def getEligibleExitRequestTimestamp (env : BeaconEnvM) (deliveredTimestamp activationEpoch : Int) :
    Int :=
  let earliestPossibleVoluntaryExitTimestamp :=
    env.genesisTimestamp +
      activationEpoch * env.slotsPerEpoch * env.secondsPerSlot +
      env.shardCommitteePeriodInSeconds
  max deliveredTimestamp earliestPossibleVoluntaryExitTimestamp

/-- Embeds `ProverService.calculateSlotFromExitDeadline`:
`Math.floor((exitDeadlineTimestamp - genesisTimestamp) / SECONDS_PER_SLOT)`. -/
def calculateSlotFromExitDeadline (env : BeaconEnvM) (exitDeadlineTimestamp : Int) : Int :=
  Int.fdiv (exitDeadlineTimestamp - env.genesisTimestamp) env.secondsPerSlot

/-- Embeds `Consensus.slotToEpoch`: `Math.floor(slot / SLOTS_PER_EPOCH)`. -/
def slotToEpochM (env : BeaconEnvM) (slot : Int) : Int :=
  Int.fdiv slot env.slotsPerEpoch

/-- Embeds `Consensus.epochToSlot`: `epoch * SLOTS_PER_EPOCH`. -/
def epochToSlotM (env : BeaconEnvM) (epoch : Int) : Int :=
  epoch * env.slotsPerEpoch

/-- Embeds `Consensus.slotToTimestamp`: `genesisTimestamp + slot * SECONDS_PER_SLOT`. -/
def slotToTimestampM (env : BeaconEnvM) (slot : Int) : Int :=
  env.genesisTimestamp + slot * env.secondsPerSlot

/-- One decoded 64-byte exit-data record
(`ProverService.decodeValidatorsData` output element). -/
structure ExitDataEntry where
  exitDataIndex : Nat
  moduleId : Nat
  nodeOpId : Nat
  validatorIndex : Nat
  validatorPubkey : Bytes

deriving DecidableEq, Repr

/-- Per-cycle lookups of `ProverService.groupValidatorsByDeadlineSlot`: the
activation epoch read from the finalized state view and the per-operator
exit deadline threshold read from the node-operators-registry contract. -/
structure GroupingEnvM where
  beacon : BeaconEnvM
  activationEpochOf : Nat → Int
  exitDeadlineThresholdOf : Nat → Nat → Int

/-- One element of a deadline-slot group
(`{ validator, activationEpoch, exitDeadlineEpoch }`). -/
structure GroupEntryM where
  validator : ExitDataEntry
  activationEpoch : Int
  exitDeadlineEpoch : Int

deriving DecidableEq, Repr

/-- JS `Map` update used by the grouping loop: append to the list under an
existing key, or add a fresh key at the end of the iteration order. -/
def insertGroup (m : List (Int × List GroupEntryM)) (k : Int) (e : GroupEntryM) :
    List (Int × List GroupEntryM) :=
  match m with
  | [] => [(k, [e])]
  | (k2, es) :: rest =>
    if k2 = k then (k2, es ++ [e]) :: rest else (k2, es) :: insertGroup rest k e

/-- JS `Map.get` (with `[]` for a missing key). -/
def lookupGroup (m : List (Int × List GroupEntryM)) (k : Int) : List GroupEntryM :=
  match m with
  | [] => []
  | (k2, es) :: rest => if k2 = k then es else lookupGroup rest k

/-- Body of the `for (const validator of validators)` loop of
`ProverService.groupValidatorsByDeadlineSlot`. -/
def groupStep (env : GroupingEnvM) (deliveredTimestamp : Int)
    (m : List (Int × List GroupEntryM)) (v : ExitDataEntry) :
    List (Int × List GroupEntryM) :=
  let activationEpoch := env.activationEpochOf v.validatorIndex
  let eligibleExitRequestTimestamp :=
    getEligibleExitRequestTimestamp env.beacon deliveredTimestamp activationEpoch
  let exitDeadlineThreshold := env.exitDeadlineThresholdOf v.moduleId v.nodeOpId
  let exitDeadline := eligibleExitRequestTimestamp + exitDeadlineThreshold
  let exitDeadlineSlot := calculateSlotFromExitDeadline env.beacon exitDeadline
  let exitDeadlineEpoch := slotToEpochM env.beacon exitDeadlineSlot
  insertGroup m exitDeadlineSlot ⟨v, activationEpoch, exitDeadlineEpoch⟩

/-- Embeds `ProverService.groupValidatorsByDeadlineSlot` (prover.service.ts
lines 1541-1604): group the decoded validators by their exit deadline slot. -/
def groupValidatorsByDeadlineSlot (env : GroupingEnvM) (validators : List ExitDataEntry)
    (deliveredTimestamp : Int) : List (Int × List GroupEntryM) :=
  validators.foldl (groupStep env deliveredTimestamp) []

/-- The deadline slot that `groupStep` files a validator under. -/
def exitDeadlineSlotOf (env : GroupingEnvM) (deliveredTimestamp : Int) (v : ExitDataEntry) : Int :=
  calculateSlotFromExitDeadline env.beacon
    (getEligibleExitRequestTimestamp env.beacon deliveredTimestamp (env.activationEpochOf v.validatorIndex) +
      env.exitDeadlineThresholdOf v.moduleId v.nodeOpId)

/-- The group entry that `groupStep` builds for a validator. -/
def groupEntryOf (env : GroupingEnvM) (deliveredTimestamp : Int) (v : ExitDataEntry) :
    GroupEntryM :=
  ⟨v, env.activationEpochOf v.validatorIndex,
    slotToEpochM env.beacon (exitDeadlineSlotOf env deliveredTimestamp v)⟩

/-! ## Exit-data decoding

Embedded from `ProverService.decodeValidatorsData` (prover.service.ts lines
1606-1649). The hex string has already been turned into bytes (`Buffer.from`);
the `0x`-prefix strip operates on the hex string and does not affect the byte
payload. -/

/-- JS `buffer.subarray(a, b)` (clamping at the ends). -/
def jsSubarray (l : Bytes) (a b : Nat) : Bytes := (l.take b).drop a

/-- Big-endian value of a byte string. -/
def beBytesToNat (l : Bytes) : Nat := l.foldl (fun acc b => 256 * acc + b.val) 0

/-- JS `BigInt('0x' + bytes.toString('hex'))`: fails (throws a `SyntaxError`)
exactly on the empty digit string. -/
def bigIntOfHexBytes (l : Bytes) : Option Nat :=
  if l = [] then none else some (beBytesToNat l)

/-- The 64-byte record loop of `decodeValidatorsData`: reads records at
`ENTRY_SIZE = 64` strides, big-endian fields at offsets `0..3`, `3..8`,
`8..16` and the pubkey at `16..64`, assigning `exitDataIndex` sequentially.
The loop runs `ceil(data.length / 64)` times; it is driven here by a `fuel`
bound (always called with `fuel = data.length`, which dominates the
iteration count, so the fuel-exhaustion branch is unreachable). -/
def decodeValidatorsDataGo (exitDataIndex : Nat) (fuel : Nat) (data : Bytes) :
    Except String (List ExitDataEntry) :=
  match fuel with
  | 0 => .ok []
  | fuel + 1 =>
    if data = [] then .ok []
    else
      let entry := data.take 64
      match bigIntOfHexBytes (jsSubarray entry 0 3), bigIntOfHexBytes (jsSubarray entry 3 8),
          bigIntOfHexBytes (jsSubarray entry 8 16) with
      | some moduleId, some nodeOpId, some validatorIndex =>
        match decodeValidatorsDataGo (exitDataIndex + 1) fuel (data.drop 64) with
        | .error e => .error e
        | .ok rest =>
          .ok (⟨exitDataIndex, moduleId, nodeOpId, validatorIndex, jsSubarray entry 16 64⟩ :: rest)
      | _, _, _ => .error "Cannot convert 0x to a BigInt"

/-- Embeds `ProverService.decodeValidatorsData`: decode the packed exit-request
payload into `(exitDataIndex, moduleId, nodeOpId, validatorIndex, pubkey)`
records. There is no payload-length validation in the source. -/
def decodeValidatorsData (data : Bytes) : Except String (List ExitDataEntry) :=
  decodeValidatorsDataGo 0 data.length data

/-! ## Merkle proof verification

Embedded from `verifyProof` in `src/src/common/helpers/proofs.ts`
(lines 295-321), a port of go-ethereum's beacon merkle verifier. The SHA-256
pair hash (`createHash('sha256')` updated with the two 32-byte buffers) is an
abstract parameter `hash2`. -/

/-- Embeds `toHex` (proofs.ts line 323): hex digits of a byte string (two digits per
byte; the constant `0x` prefix is dropped, which does not affect equality of
encodings). -/
def toHex (bs : Bytes) : List Nat :=
  bs.foldr (fun b acc => b.val / 16 :: b.val % 16 :: acc) []

/-- The `proof.forEach` loop of `verifyProof`: hash the running buffer with
each witness (concatenation order decided by the parity of the current
gindex), halving the gindex each step; throws `Branch has extra item` when
the gindex reaches 0 with witnesses still being consumed. Returns the final
buffer and remaining gindex. -/
def verifyProofLoop (hash2 : Bytes → Bytes → Bytes) :
    List Bytes → Bytes → Nat → Except String (Bytes × Nat)
  | [], buf, gI => .ok (buf, gI)
  | p :: rest, buf, gI =>
    let buf2 := if gI % 2 = 0 then hash2 buf p else hash2 p buf
    let gI2 := gI / 2
    if gI2 = 0 then .error "Branch has extra item"
    else verifyProofLoop hash2 rest buf2 gI2

/-- Embeds `verifyProof(root, gI, proof, value)` (proofs.ts lines 295-321): returns
`()` when the proof checks out and otherwise throws one of the three error
messages of the source. -/
def verifyProof (hash2 : Bytes → Bytes → Bytes) (root : Bytes) (gI : Nat)
    (proof : List Bytes) (value : Bytes) : Except String Unit :=
  match verifyProofLoop hash2 proof value gI with
  | .error e => .error e
  | .ok (buf, g) =>
    if g ≠ 1 then .error "Branch is missing items"
    else if toHex root ≠ toHex buf then .error "Proof is not valid"
    else .ok ()

/-- The bottom-up root recomputation that `verifyProof` folds out: value
hashed with the witnesses, orientation given by the gindex bits. -/
def branchRoot (hash2 : Bytes → Bytes → Bytes) : Nat → Bytes → List Bytes → Bytes
  | _, buf, [] => buf
  | gI, buf, p :: rest =>
    branchRoot hash2 (gI / 2) (if gI % 2 = 0 then hash2 buf p else hash2 p buf) rest

/-! ## Merkle tree and the proof builders

Embedded from `generateValidatorProof` and `generateHistoricalStateProof`
(proofs.ts lines 19-22 and 173-292) over the `@chainsafe/persistent-merkle-tree`
primitives (`Node`, `Tree.setNode`, `createProof`, `concatGindices`). A tree
node is either a leaf carrying its 32-byte root or a branch whose root is the
pair hash of its children's roots. Navigation follows the gindex bits below
the most significant one, from the top of the tree downwards; navigating into
a leaf is the library's `Invalid tree` error (`Option.none` here). -/

/-- Merkle tree node. -/
inductive NodeM where
  | leaf (root : Bytes)
  | branch (l r : NodeM)

deriving DecidableEq, Repr

/-- Embeds `node.root`: leaves store their root, branch roots hash the children. -/
def nodeRoot (hash2 : Bytes → Bytes → Bytes) : NodeM → Bytes
  | .leaf r => r
  | .branch l r => hash2 (nodeRoot hash2 l) (nodeRoot hash2 r)

/-- Bits of a gindex below its most significant bit, most significant first
(the digits of `gindex.toString(2).slice(1)`); `fuel` bounds the halving walk
and is always called with `fuel = g`, which dominates `log2 g`. -/
def gindexPathAux : Nat → Nat → List Bool → List Bool
  | 0, _, acc => acc
  | fuel + 1, g, acc =>
    if g ≤ 1 then acc else gindexPathAux fuel (g / 2) (decide (g % 2 = 1) :: acc)

/-- The navigation path encoded by a gindex (top-down; `false` = left). -/
def gindexPath (g : Nat) : List Bool := gindexPathAux g g []

/-- Rebuild a gindex from a navigation path. -/
def pathToGindex (path : List Bool) : Nat :=
  path.foldl (fun a b => 2 * a + (if b then 1 else 0)) 1

/-- Embeds `concatGindices` of the persistent-merkle-tree library: concatenate the
binary strings below the leading 1 under a common leading 1. -/
def concatGindices (g1 g2 : Nat) : Nat :=
  pathToGindex (gindexPath g1 ++ gindexPath g2)

/-- A `SingleProof` of the library: gindex, sibling witnesses ordered from
the leaf upwards, and the leaf value. -/
structure SingleProofM where
  gindex : Nat
  witnesses : List Bytes
  leaf : Bytes

deriving DecidableEq, Repr

/-- Embeds `createProof(rootNode, {type: single, gindex})`: walk the path collecting
sibling roots; witnesses come out ordered deepest-first. Fails when the path
descends into a leaf (unmaterialized subtree). -/
def createSingleProofAux (hash2 : Bytes → Bytes → Bytes) :
    NodeM → List Bool → Option (Bytes × List Bytes)
  | n, [] => some (nodeRoot hash2 n, [])
  | .leaf _, _ :: _ => none
  | .branch l r, b :: rest =>
    match createSingleProofAux hash2 (if b then r else l) rest with
    | none => none
    | some (v, ws) => some (v, ws ++ [nodeRoot hash2 (if b then l else r)])

/-- Embeds `createProof` packaged as a `SingleProof`. -/
def createProofM (hash2 : Bytes → Bytes → Bytes) (n : NodeM) (gI : Nat) :
    Option SingleProofM :=
  match createSingleProofAux hash2 n (gindexPath gI) with
  | none => none
  | some (v, ws) => some ⟨gI, ws, v⟩

/-- Embeds `Tree.setNode(gindex, node)`: replace the node at the given path,
rebuilding the branches along it. -/
def setNodeM : NodeM → List Bool → NodeM → Option NodeM
  | _, [], newNode => some newNode
  | .leaf _, _ :: _, _ => none
  | .branch l r, b :: rest, newNode =>
    if b then (setNodeM r rest newNode).map (fun r2 => .branch l r2)
    else (setNodeM l rest newNode).map (fun l2 => .branch l2 r)

/-- Embeds `tree.getNode(gindex)` / `view.getReadonly(i)` navigation. -/
def getNodeM : NodeM → List Bool → Option NodeM
  | n, [] => some n
  | .leaf _, _ :: _ => none
  | .branch l r, b :: rest => getNodeM (if b then r else l) rest

/-- One invocation of local `verifyProof`, as recorded by the instrumented
proof builders: the arguments it was called with. -/
structure VerifyCallM where
  root : Bytes
  gI : Nat
  witnesses : List Bytes
  value : Bytes

deriving DecidableEq, Repr

/-- Embeds `generateValidatorProof(stateView, valIndex)` (proofs.ts lines 19-22):
`createProof` on the state tree at the validator's gindex (supplied by the
SSZ type machinery), returned directly. The second component records the
local `verifyProof` invocations made before returning: the source performs
none. -/
def generateValidatorProofM (hash2 : Bytes → Bytes → Bytes) (stateTree : NodeM)
    (gI : Nat) : Option (SingleProofM × List VerifyCallM) :=
  (createProofM hash2 stateTree gI).map (fun p => (p, []))

/-- Embeds `generateHistoricalStateProof(finalizedStateView, summaryStateView,
summaryIndex, rootIndex)` (proofs.ts lines 173-292): patch the finalized tree
with the summary state's `blockRoots` node at the `blockSummaryRoot` gindex,
create a proof at the concatenated gindex, check the witness count
(`binary length - 1` bits) and witness widths, and locally verify the proof
against the patched root before returning it. `gA` is the
`historicalSummaries[summaryIndex].blockSummaryRoot` gindex and `gB` the
gindex of `blockRoots[rootIndex]`, both computed by the SSZ type machinery in
the source. The second component records the local `verifyProof` calls. -/
def generateHistoricalStateProofM (hash2 : Bytes → Bytes → Bytes)
    (finalizedTree summaryBlockRoots : NodeM) (gA gB : Nat) :
    Except String (SingleProofM × List VerifyCallM) :=
  match setNodeM finalizedTree (gindexPath gA) summaryBlockRoots with
  | none => .error "Invalid tree"
  | some patchedTree =>
    if gA ≤ 1 then .error "Invalid historical gindex: must be > 1"
    else if gB ≤ 1 then .error "Invalid block root gindex: must be > 1"
    else
      match createProofM hash2 patchedTree (concatGindices gA gB) with
      | none => .error "Invalid tree"
      | some proof =>
        if proof.witnesses.length ≠ (gindexPath (concatGindices gA gB)).length then
          .error "Witness count mismatch"
        else if proof.witnesses.any (fun w => w.length ≠ 32) then
          .error "Invalid witness"
        else
          match getNodeM summaryBlockRoots (gindexPath gB) with
          | none => .error "Invalid tree"
          | some valueNode =>
            match verifyProof hash2 (nodeRoot hash2 patchedTree) (concatGindices gA gB)
                proof.witnesses (nodeRoot hash2 valueNode) with
            | .error e => .error e
            | .ok _ =>
              .ok (proof, [⟨nodeRoot hash2 patchedTree, concatGindices gA gB,
                proof.witnesses, nodeRoot hash2 valueNode⟩])

/-- Concrete pair hash for closed instances: constant 32-byte output. -/
def hashW : Bytes → Bytes → Bytes := fun _ _ => List.replicate 32 0

/-- Concrete finalized-state tree for closed instances. -/
def finalizedTreeW : NodeM :=
  .branch (.leaf (List.replicate 32 7)) (.leaf (List.replicate 32 1))

/-- Concrete summary `blockRoots` node for closed instances. -/
def summaryBlockRootsW : NodeM :=
  .branch (.leaf (List.replicate 32 2)) (.leaf (List.replicate 32 3))

/-- The proof produced by `generateHistoricalStateProofM` on the concrete
instance above. -/
def proofW : SingleProofM :=
  ⟨4, [List.replicate 32 3, List.replicate 32 1], List.replicate 32 2⟩

/-- The verification call recorded on that run. -/
def verifyCallW : VerifyCallM :=
  ⟨List.replicate 32 0, 4, [List.replicate 32 3, List.replicate 32 1], List.replicate 32 2⟩

/-! ## handleBlock: per-deadline-group verification dispatch

Embedded from `ProverService.handleBlock` (prover.service.ts lines
1342-1516): per deadline-slot group, decide current vs historical mode and
submit once per group. The witness payload type is a parameter, as the
dispatch is independent of the witness contents. -/

/-- A beacon block header as submitted to the verifier contract. -/
structure BlockHeaderM where
  slot : Int
  proposerIndex : Int
  parentRoot : Bytes
  stateRoot : Bytes
  bodyRoot : Bytes

deriving DecidableEq, Repr

/-- Embeds `ProvableBeaconBlockHeader`. -/
structure ProvableBlockHeaderM where
  header : BlockHeaderM
  rootsTimestamp : Int

deriving DecidableEq, Repr

/-- Hex digits (values 0-15, most significant first) of
`n.toString(16)` — a singleton zero digit for 0, as in JS; `fuel`-driven,
always called with `fuel = n` which dominates the digit count. -/
def hexDigitsAux : Nat → Nat → List Nat → List Nat
  | 0, _, acc => acc
  | fuel + 1, n, acc => if n = 0 then acc else hexDigitsAux fuel (n / 16) (n % 16 :: acc)

/-- Embeds `n.toString(16)` as a digit list. -/
def hexDigits (n : Nat) : List Nat :=
  if n = 0 then [0] else hexDigitsAux n n []

/-- Embeds `String.padStart(len, '0')` on digit lists. -/
def padStartDigits (len : Nat) (pad : Nat) (l : List Nat) : List Nat :=
  List.replicate (len - l.length) pad ++ l

/-- The `rootGIndex` encoding of `handleBlock`'s historical submission
(prover.service.ts line 1469):
`'0x' + (proof.gindex.toString(16) + '00').padStart(64, '0')` — digits only,
the constant `0x` prefix dropped. -/
def handleBlockRootGIndexHex (g : Nat) : List Nat :=
  padStartDigits 64 0 (hexDigits g ++ [0, 0])

/-- The `rootGIndex` encoding of the `createHistoricalHeaderWitness` helper
(prover.service.ts lines 442-465, first file variant):
`'0x' + gindex.toString(16).padStart(64, '0')`. -/
def helperRootGIndexHex (g : Nat) : List Nat :=
  padStartDigits 64 0 (hexDigits g)

/-- Embeds `HistoricalHeaderWitness` as submitted (header, hex-encoded rootGIndex,
hex-encoded proof witnesses). -/
structure HistoricalHeaderWitnessM where
  header : BlockHeaderM
  rootGIndex : List Nat
  proof : List Bytes

deriving DecidableEq, Repr

/-- Embeds `createHistoricalHeaderWitness(header, proof)` of the first file variant
(unused by its own `handleBlock`): the unshifted gindex encoding. -/
def createHistoricalHeaderWitness (header : BlockHeaderM) (proof : SingleProofM) :
    HistoricalHeaderWitnessM :=
  ⟨header, helperRootGIndexHex proof.gindex, proof.witnesses⟩

/-- Embeds `ExitRequestsData` (packed data plus format). -/
structure ExitRequestsDataM where
  data : Bytes
  dataFormat : Nat

deriving DecidableEq, Repr

/-- One verifier-contract submission made by `handleBlock`. -/
inductive SubmissionM (W : Type) where
  | current (beaconBlock : ProvableBlockHeaderM) (witnesses : List W)
      (exitRequestsData : ExitRequestsDataM)
  | historical (beaconBlock : ProvableBlockHeaderM) (oldBlock : HistoricalHeaderWitnessM)
      (witnesses : List W) (exitRequestsData : ExitRequestsDataM)

deriving DecidableEq, Repr

/-- Number of validator witnesses carried by a submission. -/
def submissionWitnessCount {W : Type} : SubmissionM W → Nat
  | .current _ ws _ => ws.length
  | .historical _ _ ws _ => ws.length

/-- Whether a submission used the historical entry point. -/
def submissionIsHistorical {W : Type} : SubmissionM W → Bool
  | .current _ _ _ => false
  | .historical _ _ _ _ => true

/-- The class constant `SLOTS_PER_HISTORICAL_ROOT = 8192` of `ProverService`
(the distance threshold of `isSlotOld`). -/
def SLOTS_PER_HISTORICAL_ROOT : Int := 8192

/-- Per-deadline-group environment of `handleBlock`: the consensus responses
and beacon constants it consumes. -/
structure HandleEnvM where
  beacon : BeaconEnvM
  headSlot : Int
  finalizedHeader : BlockHeaderM
  deadlineHeaderOf : Int → BlockHeaderM
  capellaForkEpoch : Int
  slotsPerHistoricalRootCfg : Int
  finalizedTree : NodeM
  summaryBlockRootsOf : Int → NodeM
  gindexOfSummary : Int → Nat
  gindexOfRootInSummary : Int → Nat

/-- Embeds `ProverService.isSlotOld(slot)` (lines 1680-1703): the head slot is at
least `SLOTS_PER_HISTORICAL_ROOT` slots past the given slot. -/
def isSlotOld (env : HandleEnvM) (slot : Int) : Bool :=
  decide (SLOTS_PER_HISTORICAL_ROOT ≤ env.headSlot - slot)

/-- Embeds `ProverService.calcRootsTimestamp(slot)` (lines 1668-1674):
`genesisTimestamp + SECONDS_PER_SLOT + slot * SECONDS_PER_SLOT`. -/
def calcRootsTimestamp (env : BeaconEnvM) (slot : Int) : Int :=
  env.genesisTimestamp + env.secondsPerSlot + slot * env.secondsPerSlot

/-- Embeds `ProverService.calcSummaryIndex(slot)`:
`floor((slot - capellaForkSlot) / SLOTS_PER_HISTORICAL_ROOT)` (the
beacon-config value). -/
def calcSummaryIndex (env : HandleEnvM) (slot : Int) : Int :=
  Int.fdiv (slot - epochToSlotM env.beacon env.capellaForkEpoch) env.slotsPerHistoricalRootCfg

/-- Embeds `ProverService.calcSlotOfSummary(summaryIndex)`:
`capellaForkSlot + (summaryIndex + 1) * SLOTS_PER_HISTORICAL_ROOT`. -/
def calcSlotOfSummary (env : HandleEnvM) (summaryIndex : Int) : Int :=
  epochToSlotM env.beacon env.capellaForkEpoch + (summaryIndex + 1) * env.slotsPerHistoricalRootCfg

/-- Embeds `ProverService.calcRootIndexInSummary(slot)`:
`slot % SLOTS_PER_HISTORICAL_ROOT` (non-negative slots, so JS `%` agrees
with `Int.emod`). -/
def calcRootIndexInSummary (env : HandleEnvM) (slot : Int) : Int :=
  Int.emod slot env.slotsPerHistoricalRootCfg

/-- The `provableFinalizedBlockHeader` built by `handleBlock` (lines
1356-1365). -/
def provableFinalizedHeader (env : HandleEnvM) : ProvableBlockHeaderM :=
  ⟨env.finalizedHeader, calcRootsTimestamp env.beacon env.finalizedHeader.slot⟩

/-- The `provableDeadlineBlockHeader` built per group (lines 1411-1420). -/
def provableDeadlineHeader (env : HandleEnvM) (deadlineSlot : Int) : ProvableBlockHeaderM :=
  ⟨env.deadlineHeaderOf deadlineSlot, calcRootsTimestamp env.beacon deadlineSlot⟩

/-- The body of `handleBlock`'s `for (const [deadlineSlot, validatorGroup] of
validatorsByDeadlineSlot)` loop after the witnesses for the group have been
collected (lines 1407-1492): skip empty groups, otherwise submit once — via
`verifyHistoricalValidatorExitDelay` with the finalized provable header and a
`HistoricalHeaderWitness` around the deadline header when the slot is old,
via `verifyValidatorExitDelay` with the deadline provable header otherwise.
Returns the verifier-contract submissions made for the group. -/
def handleDeadlineGroup {W : Type} (hash2 : Bytes → Bytes → Bytes) (env : HandleEnvM)
    (deadlineSlot : Int) (validatorWitnesses : List W)
    (exitRequestsData : ExitRequestsDataM) : Except String (List (SubmissionM W)) :=
  if validatorWitnesses.isEmpty then .ok []
  else if isSlotOld env deadlineSlot then
    match generateHistoricalStateProofM hash2 env.finalizedTree
        (env.summaryBlockRootsOf (calcSlotOfSummary env (calcSummaryIndex env deadlineSlot)))
        (env.gindexOfSummary (calcSummaryIndex env deadlineSlot))
        (env.gindexOfRootInSummary (calcRootIndexInSummary env deadlineSlot)) with
    | .error e => .error e
    | .ok (proof, _) =>
      .ok [.historical (provableFinalizedHeader env)
        ⟨env.deadlineHeaderOf deadlineSlot, handleBlockRootGIndexHex proof.gindex,
          proof.witnesses⟩
        validatorWitnesses exitRequestsData]
  else
    .ok [.current (provableDeadlineHeader env deadlineSlot) validatorWitnesses exitRequestsData]

/-- Concrete `handleBlock` environment for closed instances (head slot 100,
mainnet-free small constants). -/
def handleEnvW : HandleEnvM where
  beacon := ⟨0, 12, 32, 0⟩
  headSlot := 100
  finalizedHeader := ⟨100, 0, [], [], []⟩
  deadlineHeaderOf := fun s => ⟨s, 1, [], [], []⟩
  capellaForkEpoch := 0
  slotsPerHistoricalRootCfg := 8192
  finalizedTree := finalizedTreeW
  summaryBlockRootsOf := fun _ => summaryBlockRootsW
  gindexOfSummary := fun _ => 2
  gindexOfRootInSummary := fun _ => 2

/-! C10 helper lemmas about the hex-digit encoding. -/

/-- Big-endian value of a hex digit list. -/
def fromHexDigits (l : List Nat) : Nat :=
  l.foldl (fun a d => 16 * a + d) 0

/-! ## Transaction executor

Embedded from the `Execution` service (`src/unnamed/part_008`): the
`executeDaemon` retry loop and the `executeTransaction` pipeline
(populate → emulate → validate signer → prepare (estimate/cap) → dry-run
check / gas-fee check → sign and send). Network call results are fields of
`ExecEnv`. -/

/-- Error kinds thrown inside `executeTransaction` (classes
`EmulatedCallError`, `NoSignerError`, `GasLimitExceededError`,
`HighGasFeeError`, `SendTransactionError`, plus the `TypeError` raised if
`this.signer!.populateTransaction` runs with no signer configured). -/
inductive TxError where
  | emulationFailed
  | noSigner
  | gasLimitExceeded (estimated estimatedWithBuffer configuredLimit : Nat)
  | highGasFee
  | sendFailed
  | runtimeTypeError

deriving DecidableEq, Repr

/-- Environment of one `executeTransaction` run: configuration plus the
outcomes of the external calls it makes. -/
structure ExecEnv where
  dryRun : Bool
  hasSigner : Bool
  txGasLimit : Nat
  gasEstimate : Option Nat
  emulateOk : Bool
  gasFeeAcceptable : Bool
  sendOk : Bool

deriving DecidableEq, Repr

/-- Embeds `estimateGasLimit(tx)` (part_008 lines 281-294): the provider's estimate,
falling back to the configured `TX_GAS_LIMIT` when estimation fails. -/
def estimateGasLimit (env : ExecEnv) : Nat :=
  match env.gasEstimate with
  | some estimated => estimated
  | none => env.txGasLimit

/-- Embeds `prepareTransaction(tx, context)` (part_008 lines 296-339): compute
`estimatedWithBuffer = Math.floor(estimated * 1.2)` — which for the gas
magnitudes involved equals `6 * estimated / 5` exactly — and reject with
`GasLimitExceeded` when it strictly exceeds the configured hard limit;
otherwise populate via `this.signer!` (a `TypeError` if no signer exists)
and return the gas limit used. -/
def prepareTransaction (env : ExecEnv) : Except TxError Nat :=
  let estimated := estimateGasLimit env
  let configuredLimit := env.txGasLimit
  let estimatedWithBuffer := 6 * estimated / 5
  if configuredLimit < estimatedWithBuffer then
    .error (.gasLimitExceeded estimated estimatedWithBuffer configuredLimit)
  else if env.hasSigner then .ok estimatedWithBuffer
  else .error .runtimeTypeError

/-- Observable signing/sending actions of `sendAndConfirmTransaction`. -/
inductive TxEvent where
  | signed
  | sentTx

deriving DecidableEq, Repr

/-- Embeds `sendAndConfirmTransaction` (part_008 lines 402-417): sign, send, wait;
submission failure is `SendFailed`. -/
def sendAndConfirmTransaction (env : ExecEnv) : Except TxError (List TxEvent) :=
  if env.sendOk then .ok [.signed, .sentTx] else .error .sendFailed

/-- Result of one `executeTransaction` run. -/
inductive TxOutcome where
  | sent (gasLimit : Nat)
  | dryRunSkipped (gasLimit : Nat)

deriving DecidableEq, Repr

/-- Embeds `executeTransaction` (part_008 lines 228-258), with the signing/sending
events performed: emulate (step 2), validate the signer unless dry-run
(step 3), prepare with the gas cap (steps 4-5), then either log-and-return in
dry-run mode (`validateTransactionConditions` returning false, lines
341-355), fail on unacceptable gas, or sign and send. -/
def executeTransaction (env : ExecEnv) : Except TxError (TxOutcome × List TxEvent) :=
  if env.emulateOk = false then .error .emulationFailed
  else if env.dryRun = false ∧ env.hasSigner = false then .error .noSigner
  else
    match prepareTransaction env with
    | .error e => .error e
    | .ok gasLimit =>
      if env.dryRun then .ok (.dryRunSkipped gasLimit, [])
      else if env.gasFeeAcceptable = false then .error .highGasFee
      else
        match sendAndConfirmTransaction env with
        | .error e => .error e
        | .ok events => .ok (.sent gasLimit, events)

/-- Embeds `handleExecutionError` classification (part_008 lines 446-467): after a
`NoSignerError` it merely logs and returns — the `while (true)` loop of
`executeDaemon` then continues (despite the source comment saying "Exit the
retry loop"); after `HighGasFee` it sleeps and the loop continues; any other
error is re-thrown, ending the loop. -/
def handleExecutionErrorContinues : TxError → Bool
  | .noSigner => true
  | .highGasFee => true
  | _ => false

/-- The `while (true)` loop of `executeDaemon` (part_008 lines 196-222),
indexed by fuel: returns how many times `executeTransaction` was attempted,
and `some result` when the loop terminated within the given fuel (`none`
when it was still looping). -/
def executeDaemonAux (env : ExecEnv) : Nat → Nat → Nat × Option (Except TxError Unit)
  | 0, attempts => (attempts, none)
  | fuel + 1, attempts =>
    match executeTransaction env with
    | .ok _ => (attempts + 1, some (.ok ()))
    | .error e =>
      if handleExecutionErrorContinues e then executeDaemonAux env fuel (attempts + 1)
      else (attempts + 1, some (.error e))

/-- An emulation-only deployment: no signer, dry-run off. -/
def noSignerEnv : ExecEnv :=
  ⟨false, false, 2000000, some 100, true, true, true⟩

/-! ## Cycle driver

Embedded from `RootsProcessor.process` (src/src/daemon/services/
roots-processor.ts lines 37-53): process the block range, then — on success
and unconditionally on success, with no dry-run check anywhere in the
driver — store the latest root via `LastProcessedRoot.set`. An exception
skips the store and propagates. -/

/-- The persisted `lastProcessedRoot` value (`{root, slot}`). -/
structure RootRefM where
  root : Nat
  slot : Nat

deriving DecidableEq, Repr

/-- Embeds `RootsProcessor.process(prev, latest)`: given the outcome of the
processing pass over the block range (`processBlockRoot`, which runs the
prover and the submissions), either propagate the failure without touching
`lastProcessedRoot`, or store `{root: latest.root, slot: latest.slot}`.
Returns the new `lastProcessedRoot` on success. -/
def processRoots (cycleResult : Except TxError Unit) (latest : RootRefM)
    (_lastProcessedRoot : Option RootRefM) : Except TxError (Option RootRefM) :=
  match cycleResult with
  | .error e => .error e
  | .ok _ => .ok (some latest)

/-! Helper lemmas about the grouping map. -/

theorem mem_lookupGroup_insertGroup_self (m : List (Int × List GroupEntryM)) (k : Int)
    (e : GroupEntryM) : e ∈ lookupGroup (insertGroup m k e) k := by
  induction m with
  | nil => simp [insertGroup, lookupGroup]
  | cons hd tl ih =>
    obtain ⟨k2, es⟩ := hd
    by_cases h : k2 = k
    · simp [insertGroup, lookupGroup, h]
    · simp [insertGroup, lookupGroup, h, ih]

theorem mem_lookupGroup_insertGroup_of_mem (m : List (Int × List GroupEntryM)) (k k2 : Int)
    (e e2 : GroupEntryM) (h : e ∈ lookupGroup m k) :
    e ∈ lookupGroup (insertGroup m k2 e2) k := by
  induction m with
  | nil => simp [lookupGroup] at h
  | cons hd tl ih =>
    obtain ⟨k3, es⟩ := hd
    by_cases h3 : k3 = k2
    · subst h3
      by_cases hk : k3 = k
      · simp [lookupGroup, hk] at h
        simp [insertGroup, lookupGroup, hk, h]
      · simp [lookupGroup, hk] at h
        simp [insertGroup, lookupGroup, hk, h]
    · by_cases hk : k3 = k
      · subst hk
        simp [lookupGroup] at h
        simp [insertGroup, lookupGroup, h3, h]
      · simp [lookupGroup, hk] at h
        simp [insertGroup, lookupGroup, h3, hk, ih h]

theorem mem_lookupGroup_foldl_of_mem (env : GroupingEnvM) (d : Int)
    (vs : List ExitDataEntry) (m : List (Int × List GroupEntryM)) (k : Int) (e : GroupEntryM)
    (h : e ∈ lookupGroup m k) :
    e ∈ lookupGroup (vs.foldl (groupStep env d) m) k := by
  induction vs generalizing m with
  | nil => simpa using h
  | cons v vs ih =>
    simp only [List.foldl_cons]
    exact ih _ (mem_lookupGroup_insertGroup_of_mem _ _ _ _ _ h)

theorem mem_lookupGroup_foldl (env : GroupingEnvM) (d : Int)
    (vs : List ExitDataEntry) (m : List (Int × List GroupEntryM)) (v : ExitDataEntry)
    (hv : v ∈ vs) :
    groupEntryOf env d v ∈
      lookupGroup (vs.foldl (groupStep env d) m) (exitDeadlineSlotOf env d v) := by
  induction vs generalizing m with
  | nil => simp at hv
  | cons x xs ih =>
    simp only [List.foldl_cons]
    rcases List.mem_cons.mp hv with h | h
    · subst h
      refine mem_lookupGroup_foldl_of_mem env d xs _ _ _ ?_
      exact mem_lookupGroup_insertGroup_self m _ _
    · exact ih _ h

/-- C1: For every validator processed from an exit request, the eligible exit
timestamp equals
`max(deliveredTimestamp, genesisTime + activationEpoch·SLOTS_PER_EPOCH·SECONDS_PER_SLOT + SHARD_COMMITTEE_PERIOD_IN_SECONDS)`
and the exit deadline slot it is grouped under equals
`floor((eligibleExitTimestamp + perOperatorThreshold - genesisTime) / SECONDS_PER_SLOT)`. -/
theorem c1_deadline_arithmetic (env : GroupingEnvM) (validators : List ExitDataEntry)
    (deliveredTimestamp : Int) (v : ExitDataEntry) (hv : v ∈ validators) :
    getEligibleExitRequestTimestamp env.beacon deliveredTimestamp (env.activationEpochOf v.validatorIndex) =
      max deliveredTimestamp
        (env.beacon.genesisTimestamp +
          env.activationEpochOf v.validatorIndex * env.beacon.slotsPerEpoch * env.beacon.secondsPerSlot +
          env.beacon.shardCommitteePeriodInSeconds) ∧
    groupEntryOf env deliveredTimestamp v ∈
      lookupGroup (groupValidatorsByDeadlineSlot env validators deliveredTimestamp)
        (Int.fdiv
          (getEligibleExitRequestTimestamp env.beacon deliveredTimestamp (env.activationEpochOf v.validatorIndex) +
            env.exitDeadlineThresholdOf v.moduleId v.nodeOpId -
            env.beacon.genesisTimestamp)
          env.beacon.secondsPerSlot) := by
  constructor
  · rfl
  · exact mem_lookupGroup_foldl env deliveredTimestamp validators [] v hv

/-- Closed instance of `c1_deadline_arithmetic`: one validator, mainnet-like
constants; its entry lands under the predicted deadline slot. -/
theorem c1_deadline_arithmetic_witness :
    (⟨0, 1, 2, 3, []⟩ : ExitDataEntry) ∈ [(⟨0, 1, 2, 3, []⟩ : ExitDataEntry)] ∧
    (getEligibleExitRequestTimestamp ⟨1606824023, 12, 32, 98304⟩ 1606960737 100 =
        max 1606960737 (1606824023 + 100 * 32 * 12 + 98304) ∧
      groupEntryOf ⟨⟨1606824023, 12, 32, 98304⟩, fun _ => 100, fun _ _ => 345600⟩ 1606960737
          ⟨0, 1, 2, 3, []⟩ ∈
        lookupGroup
          (groupValidatorsByDeadlineSlot ⟨⟨1606824023, 12, 32, 98304⟩, fun _ => 100, fun _ _ => 345600⟩
            [⟨0, 1, 2, 3, []⟩] 1606960737)
          (Int.fdiv (max 1606960737 (1606824023 + 100 * 32 * 12 + 98304) + 345600 - 1606824023) 12)) :=
  ⟨by decide,
    c1_deadline_arithmetic ⟨⟨1606824023, 12, 32, 98304⟩, fun _ => 100, fun _ _ => 345600⟩
      [⟨0, 1, 2, 3, []⟩] 1606960737 ⟨0, 1, 2, 3, []⟩ (by decide)⟩

/-- Behaviour of the record loop on payloads whose trailing partial record is
either absent (length a multiple of 64) or at least 9 bytes long: decoding
succeeds, one entry per (possibly partial) record, `exitDataIndex` sequential. -/
theorem decodeValidatorsDataGo_spec :
    ∀ (fuel : Nat) (data : Bytes) (idx : Nat),
      data.length ≤ fuel →
      (data.length % 64 = 0 ∨ 9 ≤ data.length % 64) →
      ∃ es, decodeValidatorsDataGo idx fuel data = .ok es ∧
        es.length = (data.length + 63) / 64 ∧
        ∀ i (hi : i < es.length), (es.get ⟨i, hi⟩).exitDataIndex = idx + i := by
  intro fuel
  induction fuel with
  | zero =>
    intro data idx hf _
    have hd : data = [] := List.eq_nil_of_length_eq_zero (Nat.le_zero.mp hf)
    subst hd
    exact ⟨[], rfl, by simp, by simp⟩
  | succ fuel ih =>
    intro data idx hf h
    by_cases hd : data = []
    · subst hd
      exact ⟨[], rfl, by simp, by simp⟩
    · have hpos : 0 < data.length := List.length_pos.mpr hd
      have hlen9 : 9 ≤ data.length := by
        rcases h with h | h
        · omega
        · omega
      have hne1 : jsSubarray (data.take 64) 0 3 ≠ [] := by
        apply List.ne_nil_of_length_pos
        simp only [jsSubarray, List.length_drop, List.length_take]
        omega
      have hne2 : jsSubarray (data.take 64) 3 8 ≠ [] := by
        apply List.ne_nil_of_length_pos
        simp only [jsSubarray, List.length_drop, List.length_take]
        omega
      have hne3 : jsSubarray (data.take 64) 8 16 ≠ [] := by
        apply List.ne_nil_of_length_pos
        simp only [jsSubarray, List.length_drop, List.length_take]
        omega
      have hdrop : (data.drop 64).length ≤ fuel := by
        simp only [List.length_drop]
        omega
      have hmod : (data.drop 64).length % 64 = 0 ∨ 9 ≤ (data.drop 64).length % 64 := by
        simp only [List.length_drop]
        rcases h with h | h
        · left; omega
        · by_cases h64 : 64 ≤ data.length
          · right; omega
          · left; omega
      obtain ⟨rest, hrest, hrestlen, hrestidx⟩ := ih (data.drop 64) (idx + 1) hdrop hmod
      refine ⟨⟨idx, beBytesToNat (jsSubarray (data.take 64) 0 3),
          beBytesToNat (jsSubarray (data.take 64) 3 8),
          beBytesToNat (jsSubarray (data.take 64) 8 16),
          jsSubarray (data.take 64) 16 64⟩ :: rest, ?_, ?_, ?_⟩
      · simp only [decodeValidatorsDataGo, hd, if_false, bigIntOfHexBytes, hne1, hne2, hne3,
          if_neg, hrest]
      · simp only [List.length_cons, hrestlen, List.length_drop]
        omega
      · intro i hi
        match i with
        | 0 => simp
        | j + 1 =>
          have hj2 : j < rest.length := by
            simp only [List.length_cons] at hi
            omega
          have h2 := hrestidx j hj2
          simp only [List.get_cons_succ]
          exact h2.trans (by omega)

/-- C6 (amended): `decodeValidatorsData` performs no payload-length
validation and never raises a `MalformedExitData` error; for every payload
whose byte length is a multiple of 64 (and also whenever the trailing
partial record has at least 9 bytes), decoding succeeds and yields one entry
per (possibly partial) 64-byte record, with `exitDataIndex` assigned
sequentially from 0. -/
theorem c6_decode_spec (data : Bytes)
    (h : data.length % 64 = 0 ∨ 9 ≤ data.length % 64) :
    ∃ es, decodeValidatorsData data = .ok es ∧
      es.length = (data.length + 63) / 64 ∧
      ∀ i (hi : i < es.length), (es.get ⟨i, hi⟩).exitDataIndex = i := by
  obtain ⟨es, hes, hlen, hidx⟩ :=
    decodeValidatorsDataGo_spec data.length data 0 le_rfl h
  exact ⟨es, hes, hlen, fun i hi => by simpa using hidx i hi⟩

/-- Closed instance of `c6_decode_spec` at a 64-byte payload. -/
theorem c6_decode_spec_witness :
    (List.replicate 64 (0 : Fin 256)).length % 64 = 0 ∧
    ∃ es, decodeValidatorsData (List.replicate 64 (0 : Fin 256)) = .ok es ∧
      es.length = ((List.replicate 64 (0 : Fin 256)).length + 63) / 64 ∧
      ∀ i (hi : i < es.length), (es.get ⟨i, hi⟩).exitDataIndex = i :=
  ⟨by decide, c6_decode_spec (List.replicate 64 (0 : Fin 256)) (Or.inl (by decide))⟩

/-- C6 counterexample: an 80-byte payload — whose length is *not* a multiple
of 64 — does not fail with `MalformedExitData` (nor with any other error):
decoding succeeds and even produces a second, truncated entry (with an
empty pubkey) from the 16 trailing bytes. -/
theorem c6_decode_counterexample :
    decodeValidatorsData (List.replicate 80 (0 : Fin 256)) =
      .ok [⟨0, 0, 0, 0, List.replicate 48 0⟩, ⟨1, 0, 0, 0, []⟩] ∧
    (List.replicate 80 (0 : Fin 256)).length % 64 ≠ 0 := by
  constructor
  · decide
  · decide

theorem toHex_injective : Function.Injective toHex := by
  intro a b h
  induction a generalizing b with
  | nil =>
    cases b with
    | nil => rfl
    | cons y ys => simp [toHex] at h
  | cons x xs ih =>
    cases b with
    | nil => simp [toHex] at h
    | cons y ys =>
      simp only [toHex, List.foldr_cons] at h
      injection h with h1 h2
      injection h2 with h2 h3
      have hxy : x = y := Fin.val_injective (by omega)
      subst hxy
      exact congrArg (x :: ·) (ih h3)

theorem verifyProofLoop_spec (hash2 : Bytes → Bytes → Bytes) :
    ∀ (proof : List Bytes) (buf : Bytes) (gI : Nat), 1 ≤ gI →
      verifyProofLoop hash2 proof buf gI =
        if proof.length ≤ Nat.log2 gI
        then .ok (branchRoot hash2 gI buf proof, gI / 2 ^ proof.length)
        else .error "Branch has extra item" := by
  intro proof
  induction proof with
  | nil =>
    intro buf gI hg
    simp [verifyProofLoop, branchRoot]
  | cons p rest ih =>
    intro buf gI hg
    simp only [verifyProofLoop]
    by_cases h2 : gI / 2 = 0
    · have hg1 : gI = 1 := by omega
      subst hg1
      have hlog : Nat.log2 1 = 0 := by
        rw [Nat.log2]
        simp
      have hcond : ¬((p :: rest).length ≤ Nat.log2 1) := by
        simp [hlog]
      rw [if_pos h2, if_neg hcond]
    · have hg2 : 2 ≤ gI := by omega
      have hlog : Nat.log2 gI = Nat.log2 (gI / 2) + 1 := by
        rw [Nat.log2]
        simp [hg2]
      have hdiv : gI / 2 / 2 ^ rest.length = gI / 2 ^ (p :: rest).length := by
        simp only [List.length_cons]
        rw [Nat.div_div_eq_div_mul, pow_succ, Nat.mul_comm]
      rw [if_neg h2, ih _ _ (by omega)]
      by_cases hle : rest.length ≤ Nat.log2 (gI / 2)
      · have hcond : (p :: rest).length ≤ Nat.log2 gI := by
          simp only [List.length_cons]
          omega
        rw [if_pos hle, if_pos hcond, hdiv]
        simp only [branchRoot]
      · have hcond : ¬((p :: rest).length ≤ Nat.log2 gI) := by
          simp only [List.length_cons]
          omega
        rw [if_neg hle, if_neg hcond]

/-- Characterization of `verifyProof` as a decision among its three error
messages and acceptance, in terms of the witness count and the recomputed
root. -/
theorem verifyProof_eq (hash2 : Bytes → Bytes → Bytes) (root value : Bytes)
    (gI : Nat) (proof : List Bytes) (hg : 1 ≤ gI) :
    verifyProof hash2 root gI proof value =
      if Nat.log2 gI < proof.length then .error "Branch has extra item"
      else if proof.length < Nat.log2 gI then .error "Branch is missing items"
      else if branchRoot hash2 gI value proof ≠ root then .error "Proof is not valid"
      else .ok () := by
  have hg0 : gI ≠ 0 := by omega
  have hself : 2 ^ Nat.log2 gI ≤ gI := Nat.log2_self_le hg0
  have hlt : gI < 2 ^ (Nat.log2 gI + 1) := Nat.lt_log2_self
  unfold verifyProof
  rw [verifyProofLoop_spec hash2 proof value gI hg]
  rcases Nat.lt_trichotomy proof.length (Nat.log2 gI) with hlen | hlen | hlen
  · -- too few witnesses: the remaining gindex is at least 2
    have hdiv2 : 2 ≤ gI / 2 ^ proof.length := by
      rw [Nat.le_div_iff_mul_le (Nat.pos_pow_of_pos _ (by omega))]
      calc 2 * 2 ^ proof.length = 2 ^ (proof.length + 1) := by
            rw [pow_succ, Nat.mul_comm]
        _ ≤ 2 ^ Nat.log2 gI := Nat.pow_le_pow_right (by omega) (by omega)
        _ ≤ gI := hself
    rw [if_pos (by omega)]
    dsimp only
    have hne : gI / 2 ^ proof.length ≠ 1 := by omega
    rw [if_pos hne, if_neg (show ¬(Nat.log2 gI < proof.length) by omega), if_pos hlen]
  · -- exact witness count: the remaining gindex is 1
    have hdiv1 : gI / 2 ^ proof.length = 1 := by
      have hge : 1 ≤ gI / 2 ^ proof.length :=
        (Nat.one_le_div_iff (Nat.pos_pow_of_pos _ (by omega))).mpr (hlen ▸ hself)
      have hlt2 : gI / 2 ^ proof.length < 2 := by
        rw [Nat.div_lt_iff_lt_mul (Nat.pos_pow_of_pos _ (by omega))]
        calc gI < 2 ^ (Nat.log2 gI + 1) := hlt
          _ = 2 * 2 ^ proof.length := by rw [hlen, pow_succ, Nat.mul_comm]
      omega
    rw [if_pos (by omega), hdiv1]
    dsimp only
    rw [if_neg (show ¬((1 : Nat) ≠ 1) by simp),
      if_neg (show ¬(Nat.log2 gI < proof.length) by omega),
      if_neg (show ¬(proof.length < Nat.log2 gI) by omega)]
    by_cases hr : branchRoot hash2 gI value proof = root
    · have ha : ¬(toHex root ≠ toHex (branchRoot hash2 gI value proof)) := by
        simp [hr]
      have hb : ¬(branchRoot hash2 gI value proof ≠ root) := by
        simp [hr]
      rw [if_neg ha, if_neg hb]
    · have ha : toHex root ≠ toHex (branchRoot hash2 gI value proof) :=
        fun h => hr (toHex_injective h).symm
      rw [if_pos ha, if_pos hr]
  · -- too many witnesses
    rw [if_neg (by omega), if_pos hlen]

/-- C2: `verifyProof(root, gindex, witnesses, leafValue)` accepts exactly when
the number of witnesses equals `floor(log2 gindex)` (so the halving walk ends
with the remaining gindex equal to 1) and the bottom-up recomputation — with
concatenation order decided by the current gindex's parity at each step —
equals the root; too few witnesses throw `Branch is missing items`, too many
throw `Branch has extra item`, and a hash mismatch throws `Proof is not
valid`. -/
theorem c2_verifyProof_spec (hash2 : Bytes → Bytes → Bytes) (root value : Bytes)
    (gI : Nat) (proof : List Bytes) (hg : 1 ≤ gI) :
    (verifyProof hash2 root gI proof value = .ok () ↔
        proof.length = Nat.log2 gI ∧ branchRoot hash2 gI value proof = root) ∧
    (proof.length < Nat.log2 gI →
        verifyProof hash2 root gI proof value = .error "Branch is missing items") ∧
    (Nat.log2 gI < proof.length →
        verifyProof hash2 root gI proof value = .error "Branch has extra item") ∧
    (proof.length = Nat.log2 gI → branchRoot hash2 gI value proof ≠ root →
        verifyProof hash2 root gI proof value = .error "Proof is not valid") := by
  rw [verifyProof_eq hash2 root value gI proof hg]
  refine ⟨⟨?_, ?_⟩, ?_, ?_, ?_⟩
  · intro h
    by_cases h1 : Nat.log2 gI < proof.length
    · rw [if_pos h1] at h
      exact absurd h (by simp)
    · rw [if_neg h1] at h
      by_cases h2 : proof.length < Nat.log2 gI
      · rw [if_pos h2] at h
        exact absurd h (by simp)
      · rw [if_neg h2] at h
        by_cases h3 : branchRoot hash2 gI value proof ≠ root
        · rw [if_pos h3] at h
          exact absurd h (by simp)
        · exact ⟨by omega, by simpa using h3⟩
  · rintro ⟨h1, h2⟩
    rw [if_neg (by omega), if_neg (by omega), if_neg (not_not_intro h2)]
  · intro h
    rw [if_neg (by omega), if_pos h]
  · intro h
    rw [if_pos h]
  · intro h1 h2
    rw [if_neg (by omega), if_neg (by omega), if_pos h2]

/-- Closed instance of `c2_verifyProof_spec`: gindex 2, one witness, the
concatenation pair-hash. -/
theorem c2_verifyProof_spec_witness :
    (1 : Nat) ≤ 2 ∧
    ((verifyProof (fun a b => a ++ b) [0, 1] 2 [[1]] [0] = .ok () ↔
        ([[1]] : List Bytes).length = Nat.log2 2 ∧
          branchRoot (fun a b => a ++ b) 2 [0] [[1]] = [0, 1]) ∧
      (([[1]] : List Bytes).length < Nat.log2 2 →
          verifyProof (fun a b => a ++ b) [0, 1] 2 [[1]] [0] =
            .error "Branch is missing items") ∧
      (Nat.log2 2 < ([[1]] : List Bytes).length →
          verifyProof (fun a b => a ++ b) [0, 1] 2 [[1]] [0] =
            .error "Branch has extra item") ∧
      (([[1]] : List Bytes).length = Nat.log2 2 →
        branchRoot (fun a b => a ++ b) 2 [0] [[1]] ≠ [0, 1] →
          verifyProof (fun a b => a ++ b) [0, 1] 2 [[1]] [0] =
            .error "Proof is not valid")) :=
  ⟨by decide, c2_verifyProof_spec (fun a b => a ++ b) [0, 1] [0] 2 [[1]] (by decide)⟩

theorem createProofM_gindex (hash2 : Bytes → Bytes → Bytes) (n : NodeM) (g : Nat)
    (p : SingleProofM) (h : createProofM hash2 n g = some p) : p.gindex = g := by
  unfold createProofM at h
  split at h
  · exact absurd h (by simp)
  · rw [Option.some.injEq] at h
    subst h
    rfl

/-- C3 (amended): the historical-state proof from
`generateHistoricalStateProof` is locally re-verified against the originating
(patched) root via `verifyProof` before it is returned, and a proof for which
that verification fails is never returned; the single validator proof from
`generateValidatorProof`, however, is returned without any local
verification. -/
theorem c3_local_verification_amended :
    (∀ (hash2 : Bytes → Bytes → Bytes) (finalizedTree summaryBlockRoots : NodeM)
        (gA gB : Nat) (pr : SingleProofM) (tr : List VerifyCallM),
      generateHistoricalStateProofM hash2 finalizedTree summaryBlockRoots gA gB = .ok (pr, tr) →
        ∃ c, tr = [c] ∧ c.gI = pr.gindex ∧ c.witnesses = pr.witnesses ∧
          verifyProof hash2 c.root c.gI c.witnesses c.value = .ok ()) ∧
    (∀ (hash2 : Bytes → Bytes → Bytes) (stateTree : NodeM) (gI : Nat)
        (pr : SingleProofM) (tr : List VerifyCallM),
      generateValidatorProofM hash2 stateTree gI = some (pr, tr) → tr = []) := by
  constructor
  · intro hash2 ft sbr gA gB pr tr h
    unfold generateHistoricalStateProofM at h
    repeat' split at h
    any_goals simpa using h
    rename_i xa patched hpatch hga hgb xb proofP hproof hcount hwidth xc valueNode hvalue xd u hverify
    rw [Except.ok.injEq, Prod.mk.injEq] at h
    obtain ⟨hpr, htr⟩ := h
    subst hpr
    refine ⟨_, htr.symm, ?_, rfl, ?_⟩
    · exact (createProofM_gindex hash2 patched _ _ hproof).symm
    · cases u
      exact hverify
  · intro hash2 stateTree gI pr tr h
    unfold generateValidatorProofM at h
    cases hc : createProofM hash2 stateTree gI with
    | none =>
      rw [hc] at h
      exact absurd h (by simp)
    | some p =>
      rw [hc] at h
      simp only [Option.map_some', Option.some.injEq, Prod.mk.injEq] at h
      exact h.2.symm

/-- C3 counterexample: the claim "every proof produced by the proof builder is
locally re-verified via verifyProof before it is returned" is false for
`generateValidatorProof`: at a concrete two-leaf state tree and gindex 2 it
returns a proof having performed no local verification at all (its recorded
verification trace is empty). -/
theorem c3_counterexample :
    ¬ (∀ (hash2 : Bytes → Bytes → Bytes) (stateTree : NodeM) (gI : Nat)
        (pr : SingleProofM) (tr : List VerifyCallM),
      generateValidatorProofM hash2 stateTree gI = some (pr, tr) →
        ∃ c, c ∈ tr ∧ verifyProof hash2 c.root c.gI c.witnesses c.value = .ok ()) := by
  intro hall
  obtain ⟨c, hc, _⟩ := hall (fun a b => a ++ b) (NodeM.branch (.leaf [0]) (.leaf [1])) 2
    ⟨2, [[1]], [0]⟩ [] (by decide)
  simp at hc

/-- Closed instance of `c3_local_verification_amended`: a successful
historical-proof run whose trace is exactly one verification call, and a
validator-proof run whose trace is empty. -/
theorem c3_local_verification_amended_witness :
    generateHistoricalStateProofM hashW finalizedTreeW summaryBlockRootsW 2 2 =
      .ok (proofW, [verifyCallW]) ∧
    (∃ c, [verifyCallW] = [c] ∧ c.gI = proofW.gindex ∧ c.witnesses = proofW.witnesses ∧
      verifyProof hashW c.root c.gI c.witnesses c.value = .ok ()) ∧
    generateValidatorProofM (fun a b => a ++ b) (NodeM.branch (.leaf [0]) (.leaf [1])) 2 =
      some (⟨2, [[1]], [0]⟩, []) ∧
    ([] : List VerifyCallM) = [] :=
  ⟨by decide,
    c3_local_verification_amended.1 hashW finalizedTreeW summaryBlockRootsW 2 2 proofW
      [verifyCallW] (by decide),
    by decide,
    c3_local_verification_amended.2 (fun a b => a ++ b)
      (NodeM.branch (.leaf [0]) (.leaf [1])) 2 ⟨2, [[1]], [0]⟩ [] (by decide)⟩

/-- C4: for every nonempty deadline-slot group, historical mode is chosen if
and only if `currentHeadSlot - deadlineSlot ≥ SLOTS_PER_HISTORICAL_ROOT`;
current mode submits with the deadline block's own header as the provable
beacon header, while historical mode submits with the finalized block's
header plus a `HistoricalHeaderWitness` wrapping the deadline block's
header. -/
theorem c4_mode_dispatch {W : Type} (hash2 : Bytes → Bytes → Bytes) (env : HandleEnvM)
    (s : Int) (ws : List W) (d : ExitRequestsDataM) (subs : List (SubmissionM W))
    (hws : ws ≠ [])
    (hok : handleDeadlineGroup hash2 env s ws d = .ok subs) :
    (∀ sub ∈ subs,
      (submissionIsHistorical sub = true ↔ SLOTS_PER_HISTORICAL_ROOT ≤ env.headSlot - s)) ∧
    (if SLOTS_PER_HISTORICAL_ROOT ≤ env.headSlot - s
      then ∃ old, subs = [.historical (provableFinalizedHeader env) old ws d] ∧
        old.header = env.deadlineHeaderOf s
      else subs = [.current (provableDeadlineHeader env s) ws d]) := by
  unfold handleDeadlineGroup at hok
  rw [if_neg (by simpa using hws)] at hok
  by_cases hold : SLOTS_PER_HISTORICAL_ROOT ≤ env.headSlot - s
  · rw [if_pos (by simpa [isSlotOld] using hold)] at hok
    split at hok
    · exact absurd hok (by simp)
    · rename_i proof rest heq
      rw [Except.ok.injEq] at hok
      subst hok
      refine ⟨?_, ?_⟩
      · intro sub hsub
        rw [List.mem_singleton] at hsub
        subst hsub
        simp [submissionIsHistorical, hold]
      · rw [if_pos hold]
        exact ⟨_, rfl, rfl⟩
  · rw [if_neg (by simpa [isSlotOld] using hold)] at hok
    rw [Except.ok.injEq] at hok
    subst hok
    refine ⟨?_, ?_⟩
    · intro sub hsub
      rw [List.mem_singleton] at hsub
      subst hsub
      simp [submissionIsHistorical, hold]
    · rw [if_neg hold]

/-- Closed instance of `c4_mode_dispatch`: head slot 100, deadline slot 50
(distance 50 < 8192), a one-witness group — current mode, deadline header. -/
theorem c4_mode_dispatch_witness :
    ([0] : List Nat) ≠ [] ∧
    handleDeadlineGroup hashW handleEnvW 50 [0] ⟨[], 1⟩ =
      .ok [.current (provableDeadlineHeader handleEnvW 50) [0] ⟨[], 1⟩] ∧
    ((∀ sub ∈ [SubmissionM.current (provableDeadlineHeader handleEnvW 50) ([0] : List Nat)
          ⟨[], 1⟩],
        (submissionIsHistorical sub = true ↔
          SLOTS_PER_HISTORICAL_ROOT ≤ handleEnvW.headSlot - 50)) ∧
      (if SLOTS_PER_HISTORICAL_ROOT ≤ handleEnvW.headSlot - 50
        then ∃ old,
          [SubmissionM.current (provableDeadlineHeader handleEnvW 50) ([0] : List Nat) ⟨[], 1⟩] =
            [.historical (provableFinalizedHeader handleEnvW) old [0] ⟨[], 1⟩] ∧
          old.header = handleEnvW.deadlineHeaderOf 50
        else
          [SubmissionM.current (provableDeadlineHeader handleEnvW 50) ([0] : List Nat) ⟨[], 1⟩] =
            [.current (provableDeadlineHeader handleEnvW 50) [0] ⟨[], 1⟩])) :=
  ⟨by decide, by decide,
    c4_mode_dispatch hashW handleEnvW 50 [0] ⟨[], 1⟩
      [.current (provableDeadlineHeader handleEnvW 50) [0] ⟨[], 1⟩]
      (by decide) (by decide)⟩

/-- C5 (code behaviour at the failing input): 120 witnesses sharing one
deadline slot produce exactly one submission carrying all 120 witnesses — no
partition into batches of `validatorBatchSize = 50` occurs, contradicting
both the claimed `[50, 50, 20]` split and the README's description of
automatic batch splitting. -/
theorem c5_no_batch_split :
    (handleDeadlineGroup hashW handleEnvW 50 (List.replicate 120 (0 : Nat)) ⟨[], 1⟩).map
        (fun subs => subs.map submissionWitnessCount) = .ok [120] ∧
    (handleDeadlineGroup hashW handleEnvW 50 (List.replicate 120 (0 : Nat)) ⟨[], 1⟩).map
        (fun subs => subs.map submissionWitnessCount) ≠ .ok [50, 50, 20] := by
  refine ⟨by decide, ?_⟩
  intro h
  rw [show (handleDeadlineGroup hashW handleEnvW 50 (List.replicate 120 (0 : Nat))
      ⟨[], 1⟩).map (fun subs => subs.map submissionWitnessCount) = .ok [120] from by decide] at h
  exact absurd h (by decide)

theorem hexDigitsAux_zero (fuel : Nat) (acc : List Nat) : hexDigitsAux fuel 0 acc = acc := by
  cases fuel <;> simp [hexDigitsAux]

theorem hexDigitsAux_fuel_mono :
    ∀ (fuel fuel2 n : Nat) (acc : List Nat), n ≤ fuel → n ≤ fuel2 →
      hexDigitsAux fuel n acc = hexDigitsAux fuel2 n acc := by
  intro fuel
  induction fuel with
  | zero =>
    intro fuel2 n acc h h2
    have hn : n = 0 := by omega
    subst hn
    rw [hexDigitsAux_zero, hexDigitsAux_zero]
  | succ fuel ih =>
    intro fuel2 n acc h h2
    by_cases hn : n = 0
    · subst hn
      rw [hexDigitsAux_zero, hexDigitsAux_zero]
    · obtain ⟨f2, hf2⟩ : ∃ f2, fuel2 = f2 + 1 := ⟨fuel2 - 1, by omega⟩
      subst hf2
      simp only [hexDigitsAux, hn, if_false]
      exact ih f2 (n / 16) _ (by omega) (by omega)

theorem hexDigitsAux_append :
    ∀ (fuel n : Nat) (acc : List Nat), n ≤ fuel →
      hexDigitsAux fuel n acc = hexDigitsAux fuel n [] ++ acc := by
  intro fuel
  induction fuel with
  | zero =>
    intro n acc h
    have hn : n = 0 := by omega
    subst hn
    rw [hexDigitsAux_zero, hexDigitsAux_zero]
    simp
  | succ fuel ih =>
    intro n acc h
    by_cases hn : n = 0
    · subst hn
      rw [hexDigitsAux_zero, hexDigitsAux_zero]
      simp
    · simp only [hexDigitsAux, hn, if_false]
      rw [ih (n / 16) (n % 16 :: acc) (by omega), ih (n / 16) [n % 16] (by omega)]
      simp

theorem hexDigits_small (n : Nat) (h : n < 16) : hexDigits n = [n] := by
  by_cases hn : n = 0
  · subst hn
    rfl
  · unfold hexDigits
    rw [if_neg hn]
    obtain ⟨f, hf⟩ : ∃ f, n = f + 1 := ⟨n - 1, by omega⟩
    rw [hf]
    simp only [hexDigitsAux, hf ▸ hn, if_false]
    have h16 : (f + 1) / 16 = 0 := by omega
    have hm : (f + 1) % 16 = f + 1 := by omega
    rw [h16, hm, hexDigitsAux_zero]

theorem hexDigits_step (n : Nat) (h : 16 ≤ n) :
    hexDigits n = hexDigits (n / 16) ++ [n % 16] := by
  have hn : n ≠ 0 := by omega
  have hq : n / 16 ≠ 0 := by omega
  unfold hexDigits
  rw [if_neg hn, if_neg hq]
  obtain ⟨f, hf⟩ : ∃ f, n = f + 1 := ⟨n - 1, by omega⟩
  rw [hf]
  simp only [hexDigitsAux, hf ▸ hn, if_false]
  rw [hexDigitsAux_append f ((f + 1) / 16) [(f + 1) % 16] (by omega),
    hexDigitsAux_fuel_mono f ((f + 1) / 16) ((f + 1) / 16) [] (by omega) le_rfl]

theorem fromHexDigits_append (l : List Nat) (d : Nat) :
    fromHexDigits (l ++ [d]) = 16 * fromHexDigits l + d := by
  simp [fromHexDigits, List.foldl_append]

theorem fromHexDigits_hexDigits : ∀ n : Nat, fromHexDigits (hexDigits n) = n := by
  intro n
  induction n using Nat.strong_induction_on with
  | _ n ih =>
    by_cases h : n < 16
    · rw [hexDigits_small n h]
      simp [fromHexDigits]
    · rw [hexDigits_step n (by omega), fromHexDigits_append,
        ih (n / 16) (by omega)]
      omega

theorem fromHexDigits_replicate_zero (k : Nat) (l : List Nat) :
    fromHexDigits (List.replicate k 0 ++ l) = fromHexDigits l := by
  induction k with
  | zero => simp
  | succ k ih =>
    rw [List.replicate_succ, List.cons_append]
    show fromHexDigits (List.replicate k 0 ++ l) = fromHexDigits l
    exact ih

theorem fromHexDigits_padStart (len : Nat) (l : List Nat) :
    fromHexDigits (padStartDigits len 0 l) = fromHexDigits l :=
  fromHexDigits_replicate_zero _ l

/-- C10: in historical mode `handleBlock` does not submit the proof's gindex
as `rootGIndex`: it appends one extra zero byte to the hex encoding, i.e. it
submits `256 · gindex` left-padded to a 32-byte hex string, whereas the
(unused) `createHistoricalHeaderWitness` helper encodes the unshifted
gindex — the two encodings always differ. -/
theorem c10_rootGIndex_encoding (g : Nat) (hg : 1 ≤ g) :
    handleBlockRootGIndexHex g = padStartDigits 64 0 (hexDigits (256 * g)) ∧
    (∀ (header : BlockHeaderM) (proof : SingleProofM), proof.gindex = g →
      (createHistoricalHeaderWitness header proof).rootGIndex = helperRootGIndexHex g) ∧
    handleBlockRootGIndexHex g ≠ helperRootGIndexHex g := by
  have hshift : hexDigits (256 * g) = hexDigits g ++ [0, 0] := by
    have h1 : 256 * g / 16 = 16 * g := by omega
    have h2 : 256 * g % 16 = 0 := by omega
    have h3 : 16 * g / 16 = g := by omega
    have h4 : 16 * g % 16 = 0 := by omega
    rw [hexDigits_step (256 * g) (by omega), h1, h2,
      hexDigits_step (16 * g) (by omega), h3, h4]
    simp
  refine ⟨?_, ?_, ?_⟩
  · rw [handleBlockRootGIndexHex, hshift]
  · intro header proof hpg
    rw [createHistoricalHeaderWitness, hpg]
  · intro h
    have hv := congrArg fromHexDigits h
    rw [handleBlockRootGIndexHex, helperRootGIndexHex, fromHexDigits_padStart,
      fromHexDigits_padStart] at hv
    have h2 : fromHexDigits (hexDigits g ++ [0, 0]) = 256 * g := by
      have : hexDigits g ++ [0, 0] = (hexDigits g ++ [0]) ++ [0] := by simp
      rw [this, fromHexDigits_append, fromHexDigits_append, fromHexDigits_hexDigits]
      ring
    rw [h2, fromHexDigits_hexDigits] at hv
    omega

/-- Closed instance of `c10_rootGIndex_encoding` at gindex 5. -/
theorem c10_rootGIndex_encoding_witness :
    (1 : Nat) ≤ 5 ∧
    (handleBlockRootGIndexHex 5 = padStartDigits 64 0 (hexDigits (256 * 5)) ∧
      (∀ (header : BlockHeaderM) (proof : SingleProofM), proof.gindex = 5 →
        (createHistoricalHeaderWitness header proof).rootGIndex = helperRootGIndexHex 5) ∧
      handleBlockRootGIndexHex 5 ≠ helperRootGIndexHex 5) :=
  ⟨by decide, c10_rootGIndex_encoding 5 (by decide)⟩

/-- C7: the executor computes `estimatedWithBuffer = floor(1.2 · estimated)`
(`6 · estimated / 5` in exact arithmetic), falls back to the configured hard
limit when gas estimation fails, and raises `GasLimitExceeded` exactly when
`estimatedWithBuffer` strictly exceeds the configured hard limit — equality
is allowed and does not raise — in which case the transaction is not sent.
(Hypotheses: emulation succeeded, and the run is not stopped earlier by the
`NoSigner` check, i.e. dry-run is on or a signer exists.) -/
theorem c7_gas_cap (env : ExecEnv) (hemu : env.emulateOk = true)
    (hsig : env.dryRun = true ∨ env.hasSigner = true) :
    (env.gasEstimate = none → estimateGasLimit env = env.txGasLimit) ∧
    (∀ e, env.gasEstimate = some e →
      (executeTransaction env = .error (.gasLimitExceeded e (6 * e / 5) env.txGasLimit) ↔
        env.txGasLimit < 6 * e / 5)) ∧
    ((∃ a b c, executeTransaction env = .error (.gasLimitExceeded a b c)) ↔
      env.txGasLimit < 6 * estimateGasLimit env / 5) ∧
    (env.txGasLimit < 6 * estimateGasLimit env / 5 →
      ∀ r, executeTransaction env ≠ .ok r) := by
  have hexec : executeTransaction env =
      (match prepareTransaction env with
        | .error e => .error e
        | .ok gasLimit =>
          if env.dryRun then .ok (.dryRunSkipped gasLimit, [])
          else if env.gasFeeAcceptable = false then .error .highGasFee
          else
            match sendAndConfirmTransaction env with
            | .error e => .error e
            | .ok events => .ok (.sent gasLimit, events)) := by
    unfold executeTransaction
    rw [if_neg (by simp [hemu]), if_neg (by rcases hsig with h | h <;> simp [h])]
  have hprep : prepareTransaction env =
      if env.txGasLimit < 6 * estimateGasLimit env / 5 then
        .error (.gasLimitExceeded (estimateGasLimit env) (6 * estimateGasLimit env / 5)
          env.txGasLimit)
      else if env.hasSigner then .ok (6 * estimateGasLimit env / 5)
      else .error .runtimeTypeError := rfl
  by_cases hc : env.txGasLimit < 6 * estimateGasLimit env / 5
  · have hval : executeTransaction env =
        .error (.gasLimitExceeded (estimateGasLimit env) (6 * estimateGasLimit env / 5)
          env.txGasLimit) := by
      rw [hexec, hprep, if_pos hc]
    refine ⟨?_, ?_, ?_, ?_⟩
    · intro h
      simp [estimateGasLimit, h]
    · intro e he
      have hee : estimateGasLimit env = e := by simp [estimateGasLimit, he]
      rw [hval, hee]
      simp only [Except.error.injEq, TxError.gasLimitExceeded.injEq]
      constructor
      · intro _
        rw [← hee]
        exact hc
      · intro _
        trivial
    · constructor
      · intro _
        exact hc
      · intro _
        exact ⟨_, _, _, hval⟩
    · intro _ r
      rw [hval]
      simp
  · have hnotgle : ∀ a b c, executeTransaction env ≠ .error (.gasLimitExceeded a b c) := by
      intro a b c
      rw [hexec, hprep, if_neg hc]
      by_cases hs : env.hasSigner
      · rw [if_pos (by simp [hs])]
        dsimp only
        by_cases hd : env.dryRun
        · simp [hd]
        · rw [if_neg (by simp [hd])]
          by_cases hg : env.gasFeeAcceptable
          · rw [if_neg (by simp [hg])]
            unfold sendAndConfirmTransaction
            by_cases hsend : env.sendOk
            · simp [hsend]
            · simp [hsend]
          · rw [if_pos (by simp [hg])]
            simp
      · rw [if_neg (by simp [hs])]
        simp
    refine ⟨?_, ?_, ?_, ?_⟩
    · intro h
      simp [estimateGasLimit, h]
    · intro e he
      have hee : estimateGasLimit env = e := by simp [estimateGasLimit, he]
      rw [← hee]
      constructor
      · intro h
        exact absurd h (hnotgle _ _ _)
      · intro h
        exact absurd h hc
    · constructor
      · intro ⟨a, b, c, h⟩
        exact absurd h (hnotgle a b c)
      · intro h
        exact absurd h hc
    · intro h
      exact absurd h hc

/-- Closed instance of `c7_gas_cap`: estimate 100, hard limit 110 — the 20%
buffer (120) exceeds the limit and the run fails with `GasLimitExceeded`. -/
theorem c7_gas_cap_witness :
    (⟨false, true, 110, some 100, true, true, true⟩ : ExecEnv).emulateOk = true ∧
    ((⟨false, true, 110, some 100, true, true, true⟩ : ExecEnv).dryRun = true ∨
      (⟨false, true, 110, some 100, true, true, true⟩ : ExecEnv).hasSigner = true) ∧
    executeTransaction ⟨false, true, 110, some 100, true, true, true⟩ =
      .error (.gasLimitExceeded 100 120 110) ∧
    ((⟨false, true, 110, some 100, true, true, true⟩ : ExecEnv).gasEstimate = some 100 →
      (executeTransaction ⟨false, true, 110, some 100, true, true, true⟩ =
          .error (.gasLimitExceeded 100 (6 * 100 / 5) 110) ↔
        110 < 6 * 100 / 5)) :=
  ⟨rfl, Or.inr rfl, by decide,
    fun he =>
      (c7_gas_cap ⟨false, true, 110, some 100, true, true, true⟩ rfl (Or.inr rfl)).2.1 100 he⟩

/-- C8 (code behaviour): with no signer configured and dry-run off, every
attempt of the transaction sequence fails with `NoSigner`, yet
`handleExecutionError` merely returns (its "Exit the retry loop" comment
notwithstanding), so the `while (true)` loop of `executeDaemon` attempts the
transaction sequence again on every iteration and never terminates: after
`fuel` iterations the sequence has been attempted `fuel` times and the loop
is still running — contradicting the claim that a `NoSigner` error
terminates the loop without retrying. -/
theorem c8_noSigner_loops_forever :
    executeTransaction noSignerEnv = .error .noSigner ∧
    ∀ fuel : Nat, executeDaemonAux noSignerEnv fuel 0 = (fuel, none) := by
  have hstep : executeTransaction noSignerEnv = .error .noSigner := by decide
  refine ⟨hstep, ?_⟩
  have haux : ∀ (fuel a : Nat), executeDaemonAux noSignerEnv fuel a = (a + fuel, none) := by
    intro fuel
    induction fuel with
    | zero => intro a; simp [executeDaemonAux]
    | succ fuel ih =>
      intro a
      simp only [executeDaemonAux, hstep, handleExecutionErrorContinues, if_pos]
      rw [ih (a + 1)]
      rw [Prod.mk.injEq]
      exact ⟨by omega, rfl⟩
  intro fuel
  simpa using haux fuel 0

/-- C9 (amended): in dry-run mode a submission returns success without
signing or sending any transaction (the event list of a dry-run
`executeTransaction` is empty), but the cycle driver persists
`lastProcessedRoot` after a successful cycle regardless of dry-run: the
persisted value is overwritten with the latest root, not left unchanged.
(Hypotheses for the dry-run success: emulation succeeded, a signer is
configured — `prepareTransaction` dereferences it even in dry-run — and the
20%-buffered estimate is within the hard limit.) -/
theorem c9_dry_run (env : ExecEnv) (latest : RootRefM) (st : Option RootRefM)
    (hdry : env.dryRun = true) (hemu : env.emulateOk = true)
    (hsig : env.hasSigner = true)
    (hcap : 6 * estimateGasLimit env / 5 ≤ env.txGasLimit) :
    executeTransaction env = .ok (.dryRunSkipped (6 * estimateGasLimit env / 5), []) ∧
    processRoots (.ok ()) latest st = .ok (some latest) := by
  constructor
  · unfold executeTransaction
    rw [if_neg (by simp [hemu]), if_neg (by simp [hdry])]
    have hprep : prepareTransaction env = .ok (6 * estimateGasLimit env / 5) := by
      unfold prepareTransaction
      rw [if_neg (by omega), if_pos (by simp [hsig])]
    rw [hprep]
    simp [hdry]
  · rfl

/-- Closed instance of `c9_dry_run`. -/
theorem c9_dry_run_witness :
    executeTransaction ⟨true, true, 2000000, some 100, true, true, true⟩ =
      .ok (.dryRunSkipped (6 * estimateGasLimit ⟨true, true, 2000000, some 100, true, true, true⟩ / 5), []) ∧
    processRoots (.ok ()) ⟨5, 7⟩ none = .ok (some ⟨5, 7⟩) :=
  c9_dry_run ⟨true, true, 2000000, some 100, true, true, true⟩ ⟨5, 7⟩ none rfl rfl rfl
    (by decide)

/-- C9 counterexample: a dry-run cycle that succeeds (here: dry-run
`executeTransaction` returning success with no signing or sending) still
changes the persisted `lastProcessedRoot` — from `none` to the latest root —
refuting the claim that the persisted `lastProcessedRoot` is unchanged by a
dry-run cycle. -/
theorem c9_counterexample :
    executeTransaction ⟨true, true, 2000000, some 100, true, true, true⟩ =
      .ok (.dryRunSkipped 120, []) ∧
    processRoots (.ok ()) ⟨5, 7⟩ none = .ok (some ⟨5, 7⟩) ∧
    (some (⟨5, 7⟩ : RootRefM) ≠ none) := by
  refine ⟨by decide, rfl, by simp⟩
